import Mathlib

/-!
# Verification of `qxl.datagrid.source.tree.TreeDataSource`

Shallow embedding of the tree-to-flat-row projection engine from
`qxl.datagrid.source.tree.TreeDataSource` (qooxdoo DataGrid).  Nodes are
identified by their hash code, modelled as `Nat` (the JS code keys
`__rowMetaDataByNode` by `node.toHashCode()`).  Row metadata objects have
JS object identity; we model that identity with record ids allocated from a
counter, a heap mapping record id to record contents, the ordered row list
(`__rowMetaDatas`) as a list of record ids, and the node index
(`__rowMetaDataByNode`) as an association list from node hash to record id.

Thrown JS errors are modelled as `Option String` paired with the state at
the moment of the throw (JS mutations performed before a `throw` persist).

The async task queue (`queue` / `__executeNextQueue` / `flushQueue`) is
modelled separately with opaque tasks: single-threaded cooperative
execution means a queued task runs to completion (up to awaits of further
queued work it spawns) before the next starts, so the drain loop is a
recursion over the pending list, with fuel to cut off unbounded spawning.
-/

namespace TreeDataSource

/-! ## Async queue model

`queue(fn)` (source lines 333-338) pushes `fn` onto `this.__queue` and, iff
the push made the queue length 1, awaits `__executeNextQueue()`, which runs
the head task, appends any tasks the head enqueues while running (their
`queue` calls see a non-empty queue, so they only push), shifts the head
off, and recurses; an exception from `await fn()` aborts the recursion
before the `shift`, so the failing task stays at the head and the error
propagates up the awaits to the caller whose `queue` call started the
drain. -/

/-- An opaque queued task: its id, whether running it throws, and the
tasks its execution enqueues via `queue` while it runs (those `queue`
calls find a non-empty queue, so they only push).  Spawned tasks are
described by `(id, fails)` pairs and spawn nothing themselves. -/
structure QTask where
  id : Nat
  fails : Bool
  spawns : List (Nat × Bool)
  deriving Repr, DecidableEq

/-- Lift a spawned `(id, fails)` description to a `QTask`. -/
def QTask.ofSpawn (p : Nat × Bool) : QTask :=
  { id := p.1, fails := p.2, spawns := [] }

/-- Outcome of running the drain loop `__executeNextQueue`:
the remaining `__queue`, the ids of tasks run to completion in order, the
error (failing task id) that propagated out of the recursion if any, and
whether the fuel cutoff was hit. -/
structure ExecOut where
  pending : List QTask
  executed : List Nat
  error : Option Nat
  stalled : Bool
  deriving Repr, DecidableEq

/-- `__executeNextQueue` (source lines 343-355): empty queue returns
(resolving any registered drain promise); otherwise run the head task
(its spawned `queue` calls push to the end of the queue), and on success
`shift` it off and recurse — on failure the exception aborts the
recursion before the `shift`. -/
def executeNextQueue : Nat → List QTask → List Nat → ExecOut
  | 0, pending, executed => ⟨pending, executed, none, true⟩
  | _ + 1, [], executed => ⟨[], executed, none, false⟩
  | fuel + 1, fn :: rest, executed =>
      let afterRun := rest ++ fn.spawns.map QTask.ofSpawn
      if fn.fails then
        ⟨fn :: afterRun, executed, some fn.id, false⟩
      else
        executeNextQueue fuel afterRun (executed ++ [fn.id])

/-- `queue(fn)` (source lines 333-338): push `fn`; iff the queue length
became 1, await the drain loop.  The second component records whether the
returned promise's settlement awaited that drain (`true`) or resolved as
soon as the push was done (`false`). -/
def queueCall (fuel : Nat) (pending : List QTask) (fn : QTask) : ExecOut × Bool :=
  let pending2 := pending ++ [fn]
  if pending2.length == 1 then
    (executeNextQueue fuel pending2 [], true)
  else
    (⟨pending2, [], none, false⟩, false)

/-- State relevant to `flushQueue`: the pending queue and whether
`__promiseQueueEmpty` is non-null (a drain promise is registered). -/
structure FlushState where
  pending : List QTask
  promiseRegistered : Bool
  deriving Repr, DecidableEq

/-- `flushQueue` (source lines 360-366): if `__promiseQueueEmpty` is
non-null, await it (the caller suspends until the drain loop resolves it);
otherwise, if the queue is non-empty, assign `__promiseQueueEmpty = new
qx.Promise()` and return — without awaiting it; otherwise return at once.
The second component records whether the caller's await suspends until the
queue is empty. -/
def flushQueue (st : FlushState) : FlushState × Bool :=
  if st.promiseRegistered then
    (st, true)
  else if st.pending.isEmpty then
    (st, false)
  else
    ({ st with promiseRegistered := true }, false)

/-- `makeAvailable(range)` (source lines 370-372) just awaits
`flushQueue()`; the `range` argument is ignored by the source. -/
def makeAvailable (st : FlushState) : FlushState × Bool :=
  flushQueue st

/-- `isAvailable(range)` (source lines 377-379). -/
def isAvailable (st : FlushState) : Bool :=
  st.pending.isEmpty

/-! ## Row metadata store -/

/-- The node inspector collaborator (`qxl.datagrid.source.tree.NodeInspector`),
restricted to the operations the data source consumes.  `getChildrenOf`
returns the children sequence, whose entries may be null (`none`);
`getParentOf` returns null (`none`) at the root or for a disconnected
node. -/
structure Inspector where
  canHaveChildren : Nat → Bool
  getChildrenOf : Nat → List (Option Nat)
  getParentOf : Nat → Option Nat

/-- One `RowMetaData` object (source lines 62-69 and `__createRowMetaData`,
lines 156-163): the node (by hash code), the indentation level, the
tri-state `canHaveChildren` (`none` = still `undefined`), the
`childRowMetas` array as record ids (`none` = property absent, i.e. not
expanded), and the `childrenChangeBinding` handle (`none` = absent). -/
structure RowMetaData where
  node : Nat
  level : Int
  canHaveChildren : Option Bool
  childRecIds : Option (List Nat)
  binding : Option Nat
  deriving Repr, DecidableEq

/-- `__createRowMetaData(node, level)` (source lines 156-163): fresh record
with `canHaveChildren` and `childrenChangeBinding` undefined. -/
def createRowMetaData (node : Nat) (level : Int) : RowMetaData :=
  { node := node, level := level, canHaveChildren := none,
    childRecIds := none, binding := none }

/-- Association-list lookup (JS `obj[key]`, `undefined` as `none`; a JS
object holds each key at most once). -/
def alookup {α : Type} : List (Nat × α) → Nat → Option α
  | [], _ => none
  | p :: l, k => if p.1 = k then some p.2 else alookup l k

/-- Association-list assignment (JS `obj[key] = v`): overwrite the entry
if the key is present, else append a new one. -/
def aset {α : Type} : List (Nat × α) → Nat → α → List (Nat × α)
  | [], k, v => [(k, v)]
  | p :: l, k, v => if p.1 = k then (k, v) :: l else p :: aset l k v

/-- Association-list deletion (JS `delete obj[key]`). -/
def aerase {α : Type} (l : List (Nat × α)) (k : Nat) : List (Nat × α) :=
  l.filter fun p => p.1 != k

/-- `qx.lang.Array.remove(arr, x)`: remove the first occurrence of `x`,
leaving the array unchanged when `x` is absent. -/
def removeFirst (l : List Nat) (x : Nat) : List Nat :=
  match l with
  | [] => []
  | a :: rest => if a == x then rest else a :: removeFirst rest x

/-- JS `Array.prototype.indexOf`: the index of the first occurrence, or
`-1` when absent. -/
def idxOf (l : List Nat) (x : Nat) : Int :=
  match l with
  | [] => -1
  | a :: rest =>
      if a == x then 0
      else
        let r := idxOf rest x
        if r == -1 then -1 else r + 1

/-- The mutable state of a `TreeDataSource` projection.  `heap` gives each
live `RowMetaData` object identity (record id to contents); `rowList` is
`__rowMetaDatas` (record ids in display order); `byNode` is
`__rowMetaDataByNode` (node hash to record id); `nextRec` / `nextBinding`
allocate fresh record ids and binding handles; `created` and `disposed`
track the binding handles handed out by
`inspector.createChildrenChangeBinding` and those whose `dispose()` has
been called. -/
structure DS where
  heap : List (Nat × RowMetaData)
  rowList : List Nat
  byNode : List (Nat × Nat)
  nextRec : Nat
  nextBinding : Nat
  created : List Nat
  disposed : List Nat
  deriving Repr, DecidableEq

/-- The freshly constructed data source (source construct, lines 30-41). -/
def DS.init : DS :=
  { heap := [], rowList := [], byNode := [], nextRec := 0,
    nextBinding := 0, created := [], disposed := [] }

/-- An operation's outcome: the state at return (or at the moment of the
throw — JS mutations made before a `throw` persist) plus the thrown error
message, `none` when the operation completed normally. -/
abbrev Outcome := DS × Option String

/-- Sequencing that stops at the first thrown error, keeping the state. -/
def andThen (r : Outcome) (f : DS → Outcome) : Outcome :=
  match r with
  | (ds, none) => f ds
  | (ds, some e) => (ds, some e)

/-- `_getNodeMetaData(node)` (source lines 193-195): index lookup, giving
the record id of the node's `RowMetaData` object. -/
def getNodeMetaData (ds : DS) (node : Nat) : Option Nat :=
  alookup ds.byNode node

/-- Dereference a record id in the heap. -/
def DS.rec? (ds : DS) (rid : Nat) : Option RowMetaData :=
  alookup ds.heap rid

/-- Overwrite a record's contents in place (JS mutation of the shared
`RowMetaData` object). -/
def DS.setRec (ds : DS) (rid : Nat) (rm : RowMetaData) : DS :=
  { ds with heap := aset ds.heap rid rm }

/-- `__disposeRowMetaData(rowMeta)` (source lines 183-188): if the record
holds a `childrenChangeBinding`, dispose it and delete the property. -/
def disposeRowMetaData (ds : DS) (rid : Nat) : DS :=
  match ds.rec? rid with
  | none => ds
  | some rm =>
      match rm.binding with
      | none => ds
      | some b =>
          { ds.setRec rid { rm with binding := none } with
              disposed := ds.disposed ++ [b] }

/-! ## Tree projection operations

Public entry points (`setRoot`, `expandNode`, `collapseNode`, `revealNode`,
`refreshNodeChildren`) wrap their work in `queue(...)`; called with the
queue empty — the situation of every sequential scenario below — the push
makes the length 1 and `queueCall` runs the task inline to completion, so
the wrappers below are the internal operations themselves. -/

/-- The child-record creation loop of `_expandNode` (source lines 218-226):
for each non-null child (`if (!childNode) continue`), create a
`RowMetaData` at the given level, set its `canHaveChildren` from the
child's inspector, collect it in `childRowMetas`, and index it in
`__rowMetaDataByNode`.  Returns the updated state and the record ids in
order. -/
def expandChildLoop (insp : Inspector) (level : Int) :
    List (Option Nat) → DS → List Nat → DS × List Nat
  | [], ds, acc => (ds, acc)
  | none :: cs, ds, acc => expandChildLoop insp level cs ds acc
  | some c :: cs, ds, acc =>
      let crid := ds.nextRec
      let crm := { createRowMetaData c level with
                     canHaveChildren := some (insp.canHaveChildren c) }
      let ds2 : DS :=
        { ds with heap := aset ds.heap crid crm,
                  byNode := aset ds.byNode c crid,
                  nextRec := crid + 1 }
      expandChildLoop insp level cs ds2 (acc ++ [crid])

/-- `_expandNode(node)` (source lines 206-234): fetch the children, look
the node up in the index (`throw` if absent), no-op if `childRowMetas` is
already present or `canHaveChildren` is falsy; otherwise create the
children-change binding (overwriting any previous one), build the child
records, and splice them into `__rowMetaDatas` right after the node's row
(`indexOf` is `-1` when the node has no row, e.g. the root, making
`before` empty and `after` the whole list). -/
def expandNodeInner (insp : Inspector) (ds : DS) (node : Nat) : Outcome :=
  let children := insp.getChildrenOf node
  match getNodeMetaData ds node with
  | none => (ds, some "Cannot find node in rows")
  | some rid =>
      match ds.rec? rid with
      | none => (ds, some "dangling record id (unreachable: the JS index stores the object itself)")
      | some rm =>
          if rm.childRecIds.isSome || rm.canHaveChildren != some true then
            (ds, none)
          else
            let b := ds.nextBinding
            let ds1 : DS :=
              { ds.setRec rid { rm with binding := some b } with
                  nextBinding := b + 1, created := ds.created ++ [b] }
            let parentRowIndex := idxOf ds1.rowList rid
            let (ds2, childIds) := expandChildLoop insp (rm.level + 1) children ds1 []
            let before := ds2.rowList.take (parentRowIndex + 1).toNat
            let after :=
              if parentRowIndex == (ds2.rowList.length : Int) - 1 then []
              else ds2.rowList.drop (parentRowIndex + 1).toNat
            let ds3 := ds2.setRec rid
              { rm with binding := some b, childRecIds := some childIds }
            ({ ds3 with rowList := before ++ childIds ++ after }, none)

/-- The recursive `removeChildRows` closure inside `_removeChildRows`
(source lines 308-316), run over a list of record ids: each record is
pushed onto `toRemove`, then its own `childRowMetas` are processed
recursively, then it is passed to `__disposeRowMetaData`.  The fuel bounds
the recursion depth (the JS recursion terminates because `childRowMetas`
chains are acyclic). -/
def collectFrom (fuel : Nat) (ds : DS) (l : List Nat) : List Nat × DS :=
  match fuel, l with
  | _, [] => ([], ds)
  | 0, _ :: _ => ([], ds)
  | f + 1, k :: ks =>
      let kids :=
        match ds.rec? k with
        | some rm => rm.childRecIds.getD []
        | none => []
      let (sub, ds1) := collectFrom f ds kids
      let ds2 := disposeRowMetaData ds1 k
      let (rest, ds3) := collectFrom f ds2 ks
      (k :: (sub ++ rest), ds3)

/-- The final removal step of `_removeChildRows` (source lines 319-322)
for one collected record: `delete this.__rowMetaDataByNode[node hash]` and
`qx.lang.Array.remove(this.__rowMetaDatas, childRowMeta)`. -/
def removeOne (ds : DS) (k : Nat) : DS :=
  match ds.rec? k with
  | none => { ds with rowList := removeFirst ds.rowList k }
  | some rm =>
      { ds with byNode := aerase ds.byNode rm.node,
                rowList := removeFirst ds.rowList k }

/-- `_removeChildRows(rowMeta)` (source lines 306-323): collect and
dispose every descendant record, `delete rowMeta.childRowMetas`, then drop
each collected record from the node index and the row list. -/
def removeChildRows (ds : DS) (rid : Nat) : DS :=
  let kids :=
    match ds.rec? rid with
    | some rm => rm.childRecIds.getD []
    | none => []
  let (toRemove, ds1) := collectFrom (ds.heap.length + 1) ds kids
  let ds2 :=
    match ds1.rec? rid with
    | some rm => ds1.setRec rid { rm with childRecIds := none }
    | none => ds1
  toRemove.foldl removeOne ds2

/-- `_collapseNode(node)` (source lines 278-292): look the node up in the
index (`throw` if absent), no-op if it has no `childRowMetas`; otherwise
dispose and delete its `childrenChangeBinding` if present, and remove the
child rows. -/
def collapseNodeInner (ds : DS) (node : Nat) : Outcome :=
  match alookup ds.byNode node with
  | none => (ds, some "Cannot find node in rows")
  | some rid =>
      match ds.rec? rid with
      | none => (ds, some "dangling record id (unreachable: the JS index stores the object itself)")
      | some rm =>
          match rm.childRecIds with
          | none => (ds, none)
          | some _ =>
              let ds1 :=
                match rm.binding with
                | some b =>
                    { ds.setRec rid { rm with binding := none } with
                        disposed := ds.disposed ++ [b] }
                | none => ds
              (removeChildRows ds1 rid, none)

/-- The child loop of `_insertChildRows` (source lines 115-124): for each
item of `getChildrenOf` in order, create a record at level 0, set its
`canHaveChildren`, push it onto `__rowMetaDatas`, index it, and push it
onto the parent's shared `childRowMetas` array.  A null item makes
`node.toHashCode()` throw a `TypeError` (the partially-mutated state of
that corner is not modelled further; no claim exercises it). -/
def insertChildLoop (insp : Inspector) (rid : Nat) :
    List (Option Nat) → DS → Outcome
  | [], ds => (ds, none)
  | none :: _, ds => (ds, some "TypeError: null child in getChildrenOf")
  | some c :: cs, ds =>
      let crid := ds.nextRec
      let crm := { createRowMetaData c 0 with
                     canHaveChildren := some (insp.canHaveChildren c) }
      let ds1 : DS :=
        { ds with heap := aset ds.heap crid crm,
                  rowList := ds.rowList ++ [crid],
                  byNode := aset ds.byNode c crid,
                  nextRec := crid + 1 }
      let ds2 :=
        match ds1.rec? rid with
        | some rm =>
            ds1.setRec rid
              { rm with childRecIds := some (rm.childRecIds.getD [] ++ [crid]) }
        | none => ds1
      insertChildLoop insp rid cs ds2

/-- `_insertChildRows(node)` (source lines 110-126): fetch the node's
record from the index (a missing record would make the property write
throw a `TypeError`), assign it a fresh empty `childRowMetas`, re-index
it, then run the child loop. -/
def insertChildRows (insp : Inspector) (ds : DS) (node : Nat) : Outcome :=
  match alookup ds.byNode node with
  | none => (ds, some "TypeError: rowMeta is undefined")
  | some rid =>
      match ds.rec? rid with
      | none => (ds, some "dangling record id (unreachable: the JS index stores the object itself)")
      | some rm =>
          let ds1 := ds.setRec rid { rm with childRecIds := some [] }
          let ds2 : DS := { ds1 with byNode := aset ds1.byNode node rid }
          insertChildLoop insp rid (insp.getChildrenOf node) ds2

/-- `__applyRoot(value, oldValue)` (source lines 84-108), the apply of the
`root` property, i.e. the body of `setRoot`.  `this.__rowMetaDatas = []`
runs first; when there was an old root, `oldRowMetaDatas` captures the
list that was just emptied, `__rowMetaDataByNode` is reset, and the
`for..in` dispose loop iterates the captured empty array zero times, so no
old record's binding is disposed.  For a non-null new root, the queued
task (run inline: the queue is empty at apply time) creates and indexes
the root record at level `-1`, sets its `canHaveChildren`, throws if that
is false, creates the children-change binding (the fresh record has
none), and inserts the child rows. -/
def applyRoot (insp : Inspector) (ds : DS) (value oldValue : Option Nat) : Outcome :=
  let ds1 : DS := { ds with rowList := [] }
  let ds2 : DS := if oldValue.isSome then { ds1 with byNode := [] } else ds1
  match value with
  | none => (ds2, none)
  | some v =>
      let rid := ds2.nextRec
      let row := createRowMetaData v (-1)
      let ds3 : DS :=
        { ds2 with heap := aset ds2.heap rid row,
                   byNode := aset ds2.byNode v rid,
                   nextRec := rid + 1 }
      let chc := insp.canHaveChildren v
      let ds4 := ds3.setRec rid { row with canHaveChildren := some chc }
      if !chc then
        (ds4, some "Root must be able to have children!")
      else
        let b := ds4.nextBinding
        let ds5 : DS :=
          { ds4.setRec rid
              { row with canHaveChildren := some chc, binding := some b } with
              nextBinding := b + 1, created := ds4.created ++ [b] }
        insertChildRows insp ds5 v

/-- `setRoot(newRoot)`: the property setter triggers `__applyRoot(newRoot,
oldRoot)`. -/
def setRoot (insp : Inspector) (ds : DS) (newRoot oldRoot : Option Nat) : Outcome :=
  applyRoot insp ds newRoot oldRoot

/-- `expandNode(node)` (source lines 198-200): `queue(() =>
this._expandNode(node))`, run inline from an empty queue. -/
def expandNode (insp : Inspector) (ds : DS) (node : Nat) : Outcome :=
  expandNodeInner insp ds node

/-- `collapseNode(node)` (source lines 269-271): `queue(() =>
this._collapseNode(node))`, run inline from an empty queue. -/
def collapseNode (ds : DS) (node : Nat) : Outcome :=
  collapseNodeInner ds node

/-- `refreshNodeChildren(node)` (source lines 132-138): one queued task
performing `_collapseNode` then `_expandNode`. -/
def refreshNodeChildren (insp : Inspector) (ds : DS) (node : Nat) : Outcome :=
  andThen (collapseNodeInner ds node) fun ds1 => expandNodeInner insp ds1 node

/-- The `while` loop of `getPathToNode` inside `revealNode` (source lines
250-254): starting from `parent = getParentOf(node)` (the argument here,
known non-null), while the current parent itself has a parent, prepend it
to the path and move up.  Fuel bounds the walk (the JS loop terminates on
acyclic parent chains). -/
def pathLoop (insp : Inspector) : Nat → Nat → List Nat → List Nat
  | 0, _, path => path
  | fuel + 1, p, path =>
      match insp.getParentOf p with
      | none => path
      | some gp => pathLoop insp fuel gp (p :: path)

/-- `getPathToNode(node)` (source lines 247-256): the ancestors of `node`
from the topmost (child of the root) down, excluding the root and `node`
itself; empty when `getParentOf(node)` is null. -/
def getPathToNode (insp : Inspector) (fuel : Nat) (node : Nat) : List Nat :=
  match insp.getParentOf node with
  | none => []
  | some p => pathLoop insp fuel p []

/-- The expansion loop of `revealNode` (source lines 260-262): expand each
resolved ancestor in order, stopping at the first thrown error. -/
def expandEach (insp : Inspector) : DS → List Nat → Outcome
  | ds, [] => (ds, none)
  | ds, a :: rest =>
      andThen (expandNodeInner insp ds a) fun ds1 => expandEach insp ds1 rest

/-- `revealNode(node)` (source lines 241-264), run inline from an empty
queue: compute the ancestor path; the guard `if (!ancestors) throw new
Error("Cannot find node in tree")` tests the `qx.data.Array` object
itself, which is always truthy, so the throw can never fire — an empty
path does not trigger it; then expand each ancestor. -/
def revealNode (insp : Inspector) (fuel : Nat) (ds : DS) (node : Nat) : Outcome :=
  let ancestors := getPathToNode insp fuel node
  expandEach insp ds ancestors

/-! ## DataSource facade -/

/-- Grid positions `(row, column)`, as `qxl.datagrid.source.Position`. -/
abbrev Position := Int × Int

/-- `getSize()` (source lines 432-434): `(row count, 1)`. -/
def getSize (ds : DS) : Position :=
  ((ds.rowList.length : Int), 1)

/-- `getPositionOfModel(node)` (source lines 392-399): null when the node
is not in `__rowMetaDataByNode`; otherwise a `Position` whose row is
`__rowMetaDatas.indexOf(row)` — which is `-1` when the record has no row
(e.g. the root record). -/
def getPositionOfModel (ds : DS) (node : Nat) : Option Position :=
  match alookup ds.byNode node with
  | none => none
  | some rid => some (idxOf ds.rowList rid, 0)

/-- `getNode(rowIndex)` (source lines 421-427): null when the index is
out of range, else the row's node. -/
def getNode (ds : DS) (rowIndex : Nat) : Option Nat :=
  if ds.rowList.length ≤ rowIndex then none
  else
    match ds.rowList.get? rowIndex with
    | none => none
    | some rid => (ds.rec? rid).map (·.node)

/-- `getModelForPosition(pos)` (source lines 384-387): `getNode(pos.row)`
with `undefined` coerced to null. -/
def getModelForPosition (ds : DS) (pos : Position) : Option Nat :=
  getNode ds pos.1.toNat

/-- The `{level, state}` object of `getNodeStateFor`. -/
structure NodeState where
  level : Int
  state : String
  deriving Repr, DecidableEq

/-- `getNodeStateFor(node)` (source lines 404-413): null when the node is
not indexed; otherwise its level and `"open"` / `"closed"` / `"none"` —
`row.canHaveChildren ? (row.childRowMetas ? "open" : "closed") : "none"`
(an empty `childRowMetas` array is truthy, hence `"open"`). -/
def getNodeStateFor (ds : DS) (node : Nat) : Option NodeState :=
  match alookup ds.byNode node with
  | none => none
  | some rid =>
      match ds.rec? rid with
      | none => none
      | some rm =>
          some { level := rm.level,
                 state :=
                   if rm.canHaveChildren == some true then
                     if rm.childRecIds.isSome then "open" else "closed"
                   else "none" }

/-- `getShownChildren(node)` (source lines 145-147):
`this._getNodeMetaData(node).childRowMetas.map(md => md.node)` — a
`TypeError` is thrown when the node is not indexed (reading
`.childRowMetas` of `undefined`) or when its record has no
`childRowMetas` (calling `.map` on `undefined`). -/
def getShownChildren (ds : DS) (node : Nat) : Except String (List Nat) :=
  match alookup ds.byNode node with
  | none => .error "TypeError: cannot read childRowMetas of undefined"
  | some rid =>
      match ds.rec? rid with
      | none => .error "dangling record id (unreachable: the JS index stores the object itself)"
      | some rm =>
          match rm.childRecIds with
          | none => .error "TypeError: cannot call map of undefined"
          | some kids => .ok (kids.map fun k => (((ds.rec? k).map (·.node)).getD 0))

/-! ## Helper lemmas about the JS container primitives -/

theorem alookup_nil {α : Type} (k : Nat) : alookup ([] : List (Nat × α)) k = none := rfl

theorem alookup_cons {α : Type} (p : Nat × α) (l : List (Nat × α)) (k : Nat) :
    alookup (p :: l) k = if p.1 = k then some p.2 else alookup l k := rfl

theorem alookup_append {α : Type} (l1 l2 : List (Nat × α)) (k : Nat) :
    alookup (l1 ++ l2) k = ((alookup l1 k).or (alookup l2 k)) := by
  induction l1 with
  | nil => simp [alookup_nil, alookup]
  | cons p l ih =>
      rw [List.cons_append, alookup_cons, alookup_cons]
      by_cases h : p.1 = k <;> simp [h, ih]

theorem alookup_none_iff {α : Type} (l : List (Nat × α)) (k : Nat) :
    alookup l k = none ↔ ∀ p ∈ l, p.1 ≠ k := by
  induction l with
  | nil => simp [alookup_nil]
  | cons p l ih =>
      rw [alookup_cons]
      by_cases h : p.1 = k <;> simp [h, ih]

theorem aset_of_not_mem {α : Type} (l : List (Nat × α)) (k : Nat) (v : α)
    (h : alookup l k = none) : aset l k v = l ++ [(k, v)] := by
  induction l with
  | nil => rfl
  | cons p l ih =>
      rw [alookup_cons] at h
      by_cases hp : p.1 = k
      · simp [hp] at h
      · simp only [hp, if_false] at h
        simp [aset, hp, ih h]

theorem alookup_aset_self {α : Type} (l : List (Nat × α)) (k : Nat) (v : α) :
    alookup (aset l k v) k = some v := by
  induction l with
  | nil => simp [aset, alookup]
  | cons p l ih =>
      by_cases hp : p.1 = k
      · simp [aset, hp, alookup]
      · simp [aset, hp, alookup_cons, ih]

theorem alookup_aset_ne {α : Type} (l : List (Nat × α)) (k k' : Nat) (v : α)
    (h : k' ≠ k) : alookup (aset l k v) k' = alookup l k' := by
  have hkk' : ¬ k = k' := fun hc => h hc.symm
  induction l with
  | nil =>
      show alookup [(k, v)] k' = alookup [] k'
      rw [alookup_cons, if_neg hkk']
  | cons p l ih =>
      by_cases hp : p.1 = k
      · simp only [aset, hp, if_true]
        rw [alookup_cons, alookup_cons]
        simp [hp, hkk']
      · simp only [aset, hp, if_false]
        rw [alookup_cons, alookup_cons]
        by_cases hp' : p.1 = k' <;> simp [hp', ih]

theorem aset_aset {α : Type} (l : List (Nat × α)) (k : Nat) (v v' : α) :
    aset (aset l k v) k v' = aset l k v' := by
  induction l with
  | nil => simp [aset]
  | cons p l ih =>
      by_cases hp : p.1 = k
      · simp [aset, hp]
      · simp [aset, hp, ih]

theorem aerase_append {α : Type} (l1 l2 : List (Nat × α)) (k : Nat) :
    aerase (l1 ++ l2) k = aerase l1 k ++ aerase l2 k := by
  simp [aerase, List.filter_append]

theorem aerase_of_not_mem {α : Type} (l : List (Nat × α)) (k : Nat)
    (h : alookup l k = none) : aerase l k = l := by
  induction l with
  | nil => rfl
  | cons p l ih =>
      rw [alookup_cons] at h
      by_cases hp : p.1 = k
      · simp [hp] at h
      · rw [if_neg hp] at h
        have hpb : (p.1 != k) = true := by simp [hp]
        have htail : aerase l k = l := ih h
        simp only [aerase, List.filter_cons, hpb, if_true] at htail ⊢
        rw [htail]

theorem removeFirst_append_of_not_mem (l1 l2 : List Nat) (x : Nat)
    (h : x ∉ l1) : removeFirst (l1 ++ l2) x = l1 ++ removeFirst l2 x := by
  induction l1 with
  | nil => simp [removeFirst]
  | cons a l ih =>
      have ha : a ≠ x := fun hc => h (hc ▸ List.mem_cons_self a l)
      have hl : x ∉ l := fun hc => h (List.mem_cons_of_mem a hc)
      simp [removeFirst, ha, ih hl]

theorem removeFirst_cons_self (l : List Nat) (x : Nat) :
    removeFirst (x :: l) x = l := by
  simp [removeFirst]

theorem idxOf_of_not_mem (l : List Nat) (x : Nat) (h : x ∉ l) :
    idxOf l x = -1 := by
  induction l with
  | nil => rfl
  | cons a rest ih =>
      have ha : a ≠ x := fun hc => h (hc ▸ List.mem_cons_self a rest)
      have hl : x ∉ rest := fun hc => h (List.mem_cons_of_mem a hc)
      simp [idxOf, ha, ih hl]

theorem idxOf_nonneg_of_mem (l : List Nat) (x : Nat) (h : x ∈ l) :
    0 ≤ idxOf l x := by
  induction l with
  | nil => cases h
  | cons a rest ih =>
      by_cases ha : a = x
      · simp [idxOf, ha]
      · have hl : x ∈ rest := by
          cases h with
          | head => exact absurd rfl ha
          | tail _ hm => exact hm
        have := ih hl
        have hne : idxOf rest x ≠ -1 := by omega
        simp only [idxOf, ha, if_false, beq_iff_eq]
        rw [if_neg (by simpa using hne)]
        omega

/-! ## Shapes produced by the child-creation loop of `_expandNode` -/

/-- Record ids `s, s+1, ..., s+k-1` allocated by a child-creation loop. -/
def idsFrom (s : Nat) : Nat → List Nat
  | 0 => []
  | k + 1 => s :: idsFrom (s + 1) k

/-- The heap entries `_expandNode`'s loop appends for children `cs`,
allocating record ids from `s`. -/
def mkRecs (insp : Inspector) (lvl : Int) (s : Nat) : List Nat → List (Nat × RowMetaData)
  | [] => []
  | c :: cs =>
      (s, { createRowMetaData c lvl with
              canHaveChildren := some (insp.canHaveChildren c) }) ::
        mkRecs insp lvl (s + 1) cs

/-- The node-index entries `_expandNode`'s loop appends for children `cs`,
allocating record ids from `s`. -/
def mkPairs (s : Nat) : List Nat → List (Nat × Nat)
  | [] => []
  | c :: cs => (c, s) :: mkPairs (s + 1) cs

theorem idsFrom_ge (n : Nat) : ∀ s k, k ∈ idsFrom s n → s ≤ k := by
  induction n with
  | zero => intro s k h; cases h
  | succ m ih =>
      intro s k h
      cases h with
      | head => exact Nat.le_refl s
      | tail _ hm => exact Nat.le_of_succ_le (ih (s + 1) k hm)

theorem idsFrom_length : ∀ n s, (idsFrom s n).length = n := by
  intro n
  induction n with
  | zero => intro s; rfl
  | succ m ih => intro s; simp [idsFrom, ih]

theorem mkRecs_length (insp : Inspector) (lvl : Int) :
    ∀ cs s, (mkRecs insp lvl s cs).length = cs.length := by
  intro cs
  induction cs with
  | nil => intro s; rfl
  | cons c cs ih => intro s; simp [mkRecs, ih]

theorem alookup_mkPairs_none (c : Nat) :
    ∀ ks s, c ∉ ks → alookup (mkPairs s ks) c = none := by
  intro ks
  induction ks with
  | nil => intro s _; rfl
  | cons k ks ih =>
      intro s h
      have hk : k ≠ c := fun hc => h (hc ▸ List.mem_cons_self k ks)
      rw [mkPairs, alookup_cons, if_neg hk]
      exact ih (s + 1) fun hc => h (List.mem_cons_of_mem k hc)

theorem alookup_mkRecs_leaf (insp : Inspector) (lvl : Int) :
    ∀ ks s k, k ∈ idsFrom s ks.length →
      ∃ rmk, alookup (mkRecs insp lvl s ks) k = some rmk ∧
        rmk.childRecIds = none ∧ rmk.binding = none := by
  intro ks
  induction ks with
  | nil => intro s k h; cases h
  | cons c ks ih =>
      intro s k h
      rw [List.length_cons, idsFrom] at h
      rw [mkRecs, alookup_cons]
      rcases List.mem_cons.mp h with h1 | hm
      · refine ⟨{ createRowMetaData c lvl with
            canHaveChildren := some (insp.canHaveChildren c) }, ?_, rfl, rfl⟩
        rw [if_pos h1.symm]
      · have hs : s + 1 ≤ k := idsFrom_ge ks.length (s + 1) k hm
        rw [if_neg (by omega)]
        exact ih (s + 1) k hm

/-! ## More association-list lemmas -/

theorem alookup_some_key_mem {α : Type} (l : List (Nat × α)) (k : Nat) (v : α)
    (h : alookup l k = some v) : ∃ p ∈ l, p.1 = k := by
  induction l with
  | nil => cases h
  | cons p l ih =>
      rw [alookup_cons] at h
      by_cases hp : p.1 = k
      · exact ⟨p, List.mem_cons_self p l, hp⟩
      · rw [if_neg hp] at h
        obtain ⟨q, hq, hqk⟩ := ih h
        exact ⟨q, List.mem_cons_of_mem p hq, hqk⟩

theorem alookup_append_left {α : Type} (l1 l2 : List (Nat × α)) (k : Nat) (v : α)
    (h : alookup l1 k = some v) : alookup (l1 ++ l2) k = some v := by
  rw [alookup_append, h]; rfl

theorem alookup_append_right {α : Type} (l1 l2 : List (Nat × α)) (k : Nat)
    (h : alookup l1 k = none) : alookup (l1 ++ l2) k = alookup l2 k := by
  rw [alookup_append, h]
  cases alookup l2 k <;> rfl

theorem aset_append_left {α : Type} (l1 l2 : List (Nat × α)) (k : Nat) (v v0 : α)
    (h : alookup l1 k = some v0) : aset (l1 ++ l2) k v = aset l1 k v ++ l2 := by
  induction l1 with
  | nil => cases h
  | cons p l ih =>
      rw [alookup_cons] at h
      by_cases hp : p.1 = k
      · simp [aset, hp]
      · rw [if_neg hp] at h
        simp [aset, hp, ih h]

theorem aset_self {α : Type} (l : List (Nat × α)) (k : Nat) (v : α)
    (h : alookup l k = some v) : aset l k v = l := by
  induction l with
  | nil => cases h
  | cons p l ih =>
      rw [alookup_cons] at h
      by_cases hp : p.1 = k
      · rw [if_pos hp] at h
        cases h
        simp only [aset, hp, if_true]
        rw [← hp]
      · rw [if_neg hp] at h
        simp [aset, hp, ih h]

theorem mem_aset {α : Type} (l : List (Nat × α)) (k : Nat) (v : α) (p : Nat × α)
    (h : p ∈ aset l k v) : p = (k, v) ∨ p ∈ l := by
  induction l with
  | nil =>
      simp [aset] at h
      exact Or.inl h
  | cons q l ih =>
      by_cases hq : q.1 = k
      · simp only [aset, hq, if_true] at h
        cases h with
        | head => exact Or.inl rfl
        | tail _ hm => exact Or.inr (List.mem_cons_of_mem q hm)
      · simp only [aset, hq, if_false] at h
        rcases List.mem_cons.mp h with h1 | h2
        · exact Or.inr (by rw [h1]; exact List.mem_cons_self _ _)
        · rcases ih h2 with h3 | h4
          · exact Or.inl h3
          · exact Or.inr (List.mem_cons_of_mem _ h4)

/-- The splice of `_expandNode` (lines 227-230) over the original row list
is the identity when no children are inserted: `before ++ after` is the
whole list, whatever `indexOf` returned. -/
theorem splice_before_after (l : List Nat) (x : Nat) :
    l.take ((idxOf l x + 1).toNat) ++
      (if idxOf l x == (l.length : Int) - 1 then []
       else l.drop ((idxOf l x + 1).toNat)) = l := by
  by_cases h : idxOf l x == (l.length : Int) - 1
  · rw [if_pos h, List.append_nil]
    have h' : idxOf l x = (l.length : Int) - 1 := by simpa using h
    cases l with
    | nil => rfl
    | cons a m =>
        rw [h']
        have hlen : (((a :: m).length : Int) - 1 + 1).toNat = (a :: m).length := by
          simp
        rw [hlen, List.take_length]
  · rw [if_neg h]
    exact List.take_append_drop _ l

/-! ## Characterizations of the expand / collapse loops -/

/-- `_expandNode`'s child loop, run on a state whose heap keys are all
below the allocation counter and whose non-null children are fresh and
distinct, appends exactly the `mkRecs` heap entries and `mkPairs` index
entries and returns the `idsFrom` record ids. -/
theorem expandChildLoop_spec (insp : Inspector) (lvl : Int) :
    ∀ (cs : List (Option Nat)) (ds : DS) (acc : List Nat),
      (∀ p ∈ ds.heap, p.1 < ds.nextRec) →
      (∀ c ∈ cs.reduceOption, alookup ds.byNode c = none) →
      cs.reduceOption.Nodup →
      expandChildLoop insp lvl cs ds acc =
        ({ ds with
             heap := ds.heap ++ mkRecs insp lvl ds.nextRec cs.reduceOption,
             byNode := ds.byNode ++ mkPairs ds.nextRec cs.reduceOption,
             nextRec := ds.nextRec + cs.reduceOption.length },
         acc ++ idsFrom ds.nextRec cs.reduceOption.length) := by
  intro cs
  induction cs with
  | nil =>
      intro ds acc _ _ _
      simp [expandChildLoop, mkRecs, mkPairs, idsFrom, List.reduceOption]
  | cons co cs ih =>
      intro ds acc h1 h2 h3
      cases co with
      | none =>
          rw [List.reduceOption_cons_of_none] at h2 h3 ⊢
          exact ih ds acc h1 h2 h3
      | some c =>
          rw [List.reduceOption_cons_of_some] at h2 h3 ⊢
          have hcFresh : alookup ds.byNode c = none := h2 c (List.mem_cons_self c _)
          have hHeapNone : alookup ds.heap ds.nextRec = none := by
            rw [alookup_none_iff]
            intro p hp
            exact Nat.ne_of_lt (h1 p hp)
          show expandChildLoop insp lvl cs
              { ds with heap := aset ds.heap ds.nextRec _,
                        byNode := aset ds.byNode c ds.nextRec,
                        nextRec := ds.nextRec + 1 }
              (acc ++ [ds.nextRec]) = _
          rw [ih _ (acc ++ [ds.nextRec])
            (by
              intro p hp
              rcases mem_aset _ _ _ _ hp with h | h
              · rw [h]; exact Nat.lt_succ_self _
              · exact Nat.lt_succ_of_lt (h1 p h))
            (by
              intro c' hc'
              have hne : c' ≠ c := by
                intro hcc
                subst hcc
                exact (List.nodup_cons.mp h3).1 hc'
              rw [alookup_aset_ne _ _ _ _ hne]
              exact h2 c' (List.mem_cons_of_mem c hc'))
            (List.nodup_cons.mp h3).2]
          rw [aset_of_not_mem _ _ _ hHeapNone, aset_of_not_mem _ _ _ hcFresh]
          simp only [List.length_cons, mkRecs, mkPairs, idsFrom, List.append_assoc,
            List.singleton_append, List.cons_append]
          simp only [Prod.mk.injEq, DS.mk.injEq, true_and, and_true, List.nil_append]
          omega

/-- The recursive collector of `_removeChildRows`, run over record ids
whose records exist, have no `childRowMetas` and no binding (freshly
created child rows), collects exactly those ids and leaves the state
unchanged, given enough fuel. -/
theorem collectFrom_leaves :
    ∀ (l : List Nat) (fuel : Nat) (ds : DS),
      (∀ k ∈ l, ∃ rmk, ds.rec? k = some rmk ∧
        rmk.childRecIds = none ∧ rmk.binding = none) →
      l.length < fuel →
      collectFrom fuel ds l = (l, ds) := by
  intro l
  induction l with
  | nil =>
      intro fuel ds _ _
      cases fuel <;> rfl
  | cons k ks ih =>
      intro fuel ds h hfuel
      match fuel, hfuel with
      | f + 1, hf =>
        obtain ⟨rmk, hrec, hkids, hbind⟩ := h k (List.mem_cons_self k ks)
        have hlen : ks.length < f := by
          simp only [List.length_cons] at hf
          omega
        have hks : collectFrom f ds ks = (ks, ds) :=
          ih f ds (fun k' hk' => h k' (List.mem_cons_of_mem k hk')) hlen
        have hnil : collectFrom f ds [] = ([], ds) := by cases f <;> rfl
        have hdisp : disposeRowMetaData ds k = ds := by
          simp only [disposeRowMetaData, hrec, hbind]
        simp only [collectFrom, hrec, hkids, Option.getD_none, hnil, hdisp, hks,
          List.nil_append]

/-- The removal fold at the end of `_removeChildRows`: removing the
freshly created child records (heap entries `mkRecs`, index entries
`mkPairs`, rows `idsFrom` spliced between `before` and `after`) restores
the node index to `B` and the row list to `before ++ after`, touching no
other field. -/
theorem removeFold_spec (insp : Inspector) (lvl : Int) :
    ∀ (kept : List Nat) (n : Nat) (H : List (Nat × RowMetaData))
      (B : List (Nat × Nat)) (before after : List Nat) (base : DS),
      base.heap = H ++ mkRecs insp lvl n kept →
      base.byNode = B ++ mkPairs n kept →
      base.rowList = before ++ idsFrom n kept.length ++ after →
      (∀ p ∈ H, p.1 < n) →
      (∀ c ∈ kept, alookup B c = none) →
      kept.Nodup →
      (∀ r ∈ before, r < n) →
      (∀ r ∈ after, r < n) →
      List.foldl removeOne base (idsFrom n kept.length) =
        { base with byNode := B, rowList := before ++ after } := by
  intro kept
  induction kept with
  | nil =>
      intro n H B before after base hH hB hR _ _ _ _ _
      simp only [List.length_nil, idsFrom, List.foldl_nil]
      have hB' : B = base.byNode := by rw [hB, mkPairs, List.append_nil]
      have hR' : before ++ after = base.rowList := by
        rw [hR]
        simp [idsFrom]
      rw [hB', hR']
  | cons c kept ih =>
      intro n H B before after base hH hB hR hHlt hBfresh hNodup hBef hAft
      simp only [List.length_cons, idsFrom, List.foldl_cons]
      simp only [List.length_cons, idsFrom] at hR
      have hrecc : base.rec? n =
          some { node := c, level := lvl,
                 canHaveChildren := some (insp.canHaveChildren c),
                 childRecIds := none, binding := none } := by
        rw [DS.rec?, hH]
        rw [alookup_append_right _ _ _ (by
          rw [alookup_none_iff]; intro p hp; exact Nat.ne_of_lt (hHlt p hp))]
        rw [mkRecs, alookup_cons, if_pos rfl]
        rfl
      have hBer : aerase B c = B :=
        aerase_of_not_mem _ _ (hBfresh c (List.mem_cons_self c kept))
      have hPer : aerase (mkPairs n (c :: kept)) c = mkPairs (n + 1) kept := by
        show List.filter _ _ = _
        rw [mkPairs, List.filter_cons]
        have hcc : (((c, n) : Nat × Nat).1 != c) = false := by simp
        rw [hcc]
        simp only [Bool.false_eq_true, if_false]
        exact aerase_of_not_mem _ _
          (alookup_mkPairs_none c kept (n + 1) (List.nodup_cons.mp hNodup).1)
      have hRem : removeFirst (before ++ (n :: idsFrom (n + 1) kept.length ++ after)) n =
          before ++ (idsFrom (n + 1) kept.length ++ after) := by
        rw [removeFirst_append_of_not_mem _ _ _
          (fun hc => Nat.ne_of_lt (hBef n hc) rfl)]
        rw [List.cons_append, removeFirst_cons_self]
      have hstep : removeOne base n =
          { base with
              byNode := B ++ mkPairs (n + 1) kept,
              rowList := before ++ idsFrom (n + 1) kept.length ++ after } := by
        simp only [removeOne, hrecc, hB, hR]
        rw [aerase_append, hBer, hPer]
        rw [List.append_assoc, hRem, ← List.append_assoc]
      rw [hstep]
      rw [ih (n + 1) (H ++ [(n, { createRowMetaData c lvl with
            canHaveChildren := some (insp.canHaveChildren c) })]) B before after _
        (by
          show base.heap = _
          rw [hH, mkRecs, List.append_assoc, List.singleton_append])
        rfl
        rfl
        (by
          intro p hp
          rcases List.mem_append.mp hp with h | h
          · exact Nat.lt_succ_of_lt (hHlt p h)
          · rcases List.mem_singleton.mp h with rfl
            exact Nat.lt_succ_self n)
        (fun c' hc' => hBfresh c' (List.mem_cons_of_mem c hc'))
        (List.nodup_cons.mp hNodup).2
        (fun r hr => Nat.lt_succ_of_lt (hBef r hr))
        (fun r hr => Nat.lt_succ_of_lt (hAft r hr))]

/-- Full characterization of `_expandNode` on an indexed, collapsed,
expandable node whose (non-null) children are fresh and distinct: the
binding is created, the child records are allocated and indexed, and the
rows are spliced right after the parent's row. -/
theorem expandNode_spec (insp : Inspector) (ds : DS) (node rid : Nat) (rm : RowMetaData)
    (hIdx : alookup ds.byNode node = some rid)
    (hRec : ds.rec? rid = some rm)
    (hNoKids : rm.childRecIds = none)
    (hChc : rm.canHaveChildren = some true)
    (hHeap : ∀ p ∈ ds.heap, p.1 < ds.nextRec)
    (hFresh : ∀ c ∈ (insp.getChildrenOf node).reduceOption, alookup ds.byNode c = none)
    (hNodup : (insp.getChildrenOf node).reduceOption.Nodup) :
    expandNode insp ds node =
      ({ ds with
           heap := aset ds.heap rid
               { rm with binding := some ds.nextBinding,
                         childRecIds := some (idsFrom ds.nextRec
                           (insp.getChildrenOf node).reduceOption.length) }
             ++ mkRecs insp (rm.level + 1) ds.nextRec (insp.getChildrenOf node).reduceOption,
           byNode := ds.byNode ++ mkPairs ds.nextRec (insp.getChildrenOf node).reduceOption,
           rowList := ds.rowList.take ((idxOf ds.rowList rid + 1).toNat) ++
             idsFrom ds.nextRec (insp.getChildrenOf node).reduceOption.length ++
             (if idxOf ds.rowList rid == (ds.rowList.length : Int) - 1 then []
              else ds.rowList.drop ((idxOf ds.rowList rid + 1).toNat)),
           nextRec := ds.nextRec + (insp.getChildrenOf node).reduceOption.length,
           nextBinding := ds.nextBinding + 1,
           created := ds.created ++ [ds.nextBinding] }, none) := by
  have hRid : rid < ds.nextRec := by
    obtain ⟨p, hp, hpk⟩ := alookup_some_key_mem _ _ _ hRec
    exact hpk ▸ hHeap p hp
  have hCond : (rm.childRecIds.isSome || (rm.canHaveChildren != some true)) = false := by
    rw [hNoKids, hChc]
    rfl
  have hLoop := expandChildLoop_spec insp (rm.level + 1) (insp.getChildrenOf node)
      { ds.setRec rid { rm with binding := some ds.nextBinding } with
          nextBinding := ds.nextBinding + 1, created := ds.created ++ [ds.nextBinding] }
      []
      (by
        intro p hp
        rcases mem_aset ds.heap rid { rm with binding := some ds.nextBinding } p hp with h | h
        · rw [h]
          exact hRid
        · exact hHeap p h)
      (fun c hc => hFresh c hc)
      hNodup
  simp only [DS.setRec] at hLoop
  simp only [expandNode, expandNodeInner, getNodeMetaData, hIdx, hRec, hCond,
    Bool.false_eq_true, if_false, DS.setRec, hLoop, List.nil_append]
  have hAsetApp := aset_append_left
    (aset ds.heap rid { rm with binding := some ds.nextBinding })
    (mkRecs insp (rm.level + 1) ds.nextRec (insp.getChildrenOf node).reduceOption)
    rid
    { rm with binding := some ds.nextBinding,
              childRecIds := some (idsFrom ds.nextRec
                (insp.getChildrenOf node).reduceOption.length) }
    { rm with binding := some ds.nextBinding }
    (alookup_aset_self _ _ _)
  rw [hAsetApp, aset_aset]

/-- Full characterization of `_collapseNode` on the state produced by
expanding a previously collapsed, binding-free node: the node's binding is
disposed, the freshly created child records are dropped from both the row
list and the node index, and the node's record returns to its pre-expand
contents (the stale child heap entries, unreachable in JS, remain in our
explicit heap). -/
theorem collapseNode_undo (insp : Inspector) (lvl : Int) (ds0 : DS) (node rid : Nat)
    (rm : RowMetaData) (kept before after : List Nat) (b nb : Nat)
    (cr dp : List Nat)
    (hIdx0 : alookup ds0.byNode node = some rid)
    (hRec0 : ds0.rec? rid = some rm)
    (hNoKids : rm.childRecIds = none)
    (hNoBind : rm.binding = none)
    (hHeap : ∀ p ∈ ds0.heap, p.1 < ds0.nextRec)
    (hFresh : ∀ c ∈ kept, alookup ds0.byNode c = none)
    (hNodup : kept.Nodup)
    (hBef : ∀ r ∈ before, r < ds0.nextRec)
    (hAft : ∀ r ∈ after, r < ds0.nextRec) :
    collapseNode
      { heap := aset ds0.heap rid
            { rm with binding := some b,
                      childRecIds := some (idsFrom ds0.nextRec kept.length) }
          ++ mkRecs insp lvl ds0.nextRec kept,
        rowList := before ++ idsFrom ds0.nextRec kept.length ++ after,
        byNode := ds0.byNode ++ mkPairs ds0.nextRec kept,
        nextRec := ds0.nextRec + kept.length,
        nextBinding := nb, created := cr, disposed := dp } node =
      ({ heap := ds0.heap ++ mkRecs insp lvl ds0.nextRec kept,
         rowList := before ++ after,
         byNode := ds0.byNode,
         nextRec := ds0.nextRec + kept.length,
         nextBinding := nb, created := cr, disposed := dp ++ [b] }, none) := by
  have hIdxE : alookup (ds0.byNode ++ mkPairs ds0.nextRec kept) node = some rid :=
    alookup_append_left _ _ _ _ hIdx0
  have hrm2look : alookup
      (aset ds0.heap rid
          { rm with binding := some b,
                    childRecIds := some (idsFrom ds0.nextRec kept.length) }
        ++ mkRecs insp lvl ds0.nextRec kept) rid =
      some { rm with binding := some b,
                     childRecIds := some (idsFrom ds0.nextRec kept.length) } :=
    alookup_append_left _ _ _ _ (alookup_aset_self _ _ _)
  have hAset3 : aset
      (aset ds0.heap rid
          { rm with binding := some b,
                    childRecIds := some (idsFrom ds0.nextRec kept.length) }
        ++ mkRecs insp lvl ds0.nextRec kept) rid
      { rm with childRecIds := some (idsFrom ds0.nextRec kept.length), binding := none } =
      aset ds0.heap rid
          { rm with childRecIds := some (idsFrom ds0.nextRec kept.length), binding := none }
        ++ mkRecs insp lvl ds0.nextRec kept := by
    rw [aset_append_left _ _ _ _ _ (alookup_aset_self _ _ _), aset_aset]
  have hrm3look : alookup
      (aset ds0.heap rid
          { rm with childRecIds := some (idsFrom ds0.nextRec kept.length), binding := none }
        ++ mkRecs insp lvl ds0.nextRec kept) rid =
      some { rm with childRecIds := some (idsFrom ds0.nextRec kept.length), binding := none } :=
    alookup_append_left _ _ _ _ (alookup_aset_self _ _ _)
  have hRec0' : alookup ds0.heap rid = some rm := hRec0
  have hRid : rid < ds0.nextRec := by
    obtain ⟨p, hp, hpk⟩ := alookup_some_key_mem _ _ _ hRec0'
    exact hpk ▸ hHeap p hp
  have hrmEq : RowMetaData.mk rm.node rm.level rm.canHaveChildren none none = rm := by
    cases rm
    simp_all
  have hleftNone : ∀ k, ds0.nextRec ≤ k →
      alookup (aset ds0.heap rid
        { rm with childRecIds := some (idsFrom ds0.nextRec kept.length),
                  binding := none }) k = none := by
    intro k hk
    rw [alookup_none_iff]
    intro p hp
    rcases mem_aset _ _ _ _ hp with h | h
    · rw [h]
      show rid ≠ k
      omega
    · exact Nat.ne_of_lt (Nat.lt_of_lt_of_le (hHeap p h) hk)
  have hleafrec : ∀ k ∈ idsFrom ds0.nextRec kept.length, ∃ rmk,
      (DS.rec? { heap := (aset ds0.heap rid
                     { rm with childRecIds := some (idsFrom ds0.nextRec kept.length),
                               binding := none })
                   ++ mkRecs insp lvl ds0.nextRec kept,
                 rowList := before ++ idsFrom ds0.nextRec kept.length ++ after,
                 byNode := ds0.byNode ++ mkPairs ds0.nextRec kept,
                 nextRec := ds0.nextRec + kept.length,
                 nextBinding := nb, created := cr, disposed := dp ++ [b] } k = some rmk) ∧
      rmk.childRecIds = none ∧ rmk.binding = none := by
    intro k hk
    obtain ⟨rmk, hlook, h1, h2⟩ := alookup_mkRecs_leaf insp lvl kept ds0.nextRec k hk
    refine ⟨rmk, ?_, h1, h2⟩
    show alookup _ k = some rmk
    rw [alookup_append_right _ _ _
      (hleftNone k (idsFrom_ge kept.length ds0.nextRec k hk))]
    exact hlook
  have hlen : (idsFrom ds0.nextRec kept.length).length <
      (aset ds0.heap rid
          { rm with childRecIds := some (idsFrom ds0.nextRec kept.length),
                    binding := none }
        ++ mkRecs insp lvl ds0.nextRec kept).length + 1 := by
    rw [idsFrom_length, List.length_append, mkRecs_length]
    omega
  have hleaves := collectFrom_leaves (idsFrom ds0.nextRec kept.length)
      ((aset ds0.heap rid
          { rm with childRecIds := some (idsFrom ds0.nextRec kept.length),
                    binding := none }
        ++ mkRecs insp lvl ds0.nextRec kept).length + 1)
      { heap := (aset ds0.heap rid
                    { rm with childRecIds := some (idsFrom ds0.nextRec kept.length),
                              binding := none })
                  ++ mkRecs insp lvl ds0.nextRec kept,
        rowList := before ++ idsFrom ds0.nextRec kept.length ++ after,
        byNode := ds0.byNode ++ mkPairs ds0.nextRec kept,
        nextRec := ds0.nextRec + kept.length,
        nextBinding := nb, created := cr, disposed := dp ++ [b] }
      hleafrec hlen
  have hfold := removeFold_spec insp lvl kept ds0.nextRec ds0.heap ds0.byNode before after
      { heap := ds0.heap ++ mkRecs insp lvl ds0.nextRec kept,
        rowList := before ++ idsFrom ds0.nextRec kept.length ++ after,
        byNode := ds0.byNode ++ mkPairs ds0.nextRec kept,
        nextRec := ds0.nextRec + kept.length,
        nextBinding := nb, created := cr, disposed := dp ++ [b] }
      rfl rfl rfl hHeap hFresh hNodup hBef hAft
  simp only [collapseNode, collapseNodeInner, hIdxE, DS.rec?, hrm2look, DS.setRec, hAset3]
  simp only [removeChildRows, DS.rec?, hrm3look, Option.getD_some, hleaves, DS.setRec,
    hAset3]
  rw [aset_append_left _ _ _ _ _ (alookup_aset_self _ _ _), aset_aset, hrmEq,
    aset_self _ _ _ hRec0']
  rw [hfold]

/-- C8 — For every node present in the index with `canHaveChildren`
true and no `childRowMetas` (a collapsed node, hence also without a
children-change binding), whose non-null children are distinct newcomers,
`expandNode` followed by `collapseNode` restores both the row list and the
node index to their exact pre-expand state: the node keeps the same
record id and record contents, every record created by the expand is gone
from row list and index, the surrounding rows keep their order, and the
children-change binding created by the expand is disposed. -/
theorem C8_expand_collapse_roundtrip (insp : Inspector) (ds : DS) (node rid : Nat)
    (rm : RowMetaData)
    (hIdx : alookup ds.byNode node = some rid)
    (hRec : ds.rec? rid = some rm)
    (hNoKids : rm.childRecIds = none)
    (hChc : rm.canHaveChildren = some true)
    (hNoBind : rm.binding = none)
    (hHeap : ∀ p ∈ ds.heap, p.1 < ds.nextRec)
    (hRow : ∀ r ∈ ds.rowList, r < ds.nextRec)
    (hFresh : ∀ c ∈ (insp.getChildrenOf node).reduceOption, alookup ds.byNode c = none)
    (hNodup : (insp.getChildrenOf node).reduceOption.Nodup) :
    (expandNode insp ds node).2 = none ∧
    (expandNode insp ds node).1.created = ds.created ++ [ds.nextBinding] ∧
    (collapseNode (expandNode insp ds node).1 node).2 = none ∧
    (collapseNode (expandNode insp ds node).1 node).1.rowList = ds.rowList ∧
    (collapseNode (expandNode insp ds node).1 node).1.byNode = ds.byNode ∧
    alookup (collapseNode (expandNode insp ds node).1 node).1.byNode node = some rid ∧
    (collapseNode (expandNode insp ds node).1 node).1.rec? rid = some rm ∧
    (∀ c ∈ (insp.getChildrenOf node).reduceOption,
      alookup (collapseNode (expandNode insp ds node).1 node).1.byNode c = none) ∧
    (collapseNode (expandNode insp ds node).1 node).1.disposed =
      ds.disposed ++ [ds.nextBinding] := by
  have hE := expandNode_spec insp ds node rid rm hIdx hRec hNoKids hChc hHeap hFresh hNodup
  have hC := collapseNode_undo insp (rm.level + 1) ds node rid rm
      (insp.getChildrenOf node).reduceOption
      (ds.rowList.take ((idxOf ds.rowList rid + 1).toNat))
      (if idxOf ds.rowList rid == (ds.rowList.length : Int) - 1 then []
       else ds.rowList.drop ((idxOf ds.rowList rid + 1).toNat))
      ds.nextBinding (ds.nextBinding + 1) (ds.created ++ [ds.nextBinding]) ds.disposed
      hIdx hRec hNoKids hNoBind hHeap hFresh hNodup
      (fun r hr => hRow r (List.mem_of_mem_take hr))
      (by
        intro r hr
        by_cases hcond : (idxOf ds.rowList rid == (ds.rowList.length : Int) - 1) = true
        · rw [if_pos hcond] at hr
          cases hr
        · rw [if_neg hcond] at hr
          exact hRow r (List.mem_of_mem_drop hr))
  simp only [hE, hC]
  refine ⟨trivial, trivial, trivial, splice_before_after ds.rowList rid, trivial,
    hIdx, ?_, hFresh, trivial⟩
  show alookup _ rid = some rm
  exact alookup_append_left _ _ _ _ hRec

/-! ## Queue lemmas -/

theorem executeNextQueue_drains (fuel : Nat) :
    ∀ pending executed, (executeNextQueue fuel pending executed).stalled = false →
      (executeNextQueue fuel pending executed).error = none →
      (executeNextQueue fuel pending executed).pending = [] := by
  induction fuel with
  | zero =>
      intro pending executed h
      simp [executeNextQueue] at h
  | succ f ih =>
      intro pending executed hs he
      cases pending with
      | nil => simp [executeNextQueue]
      | cons fn rest =>
          by_cases hf : fn.fails = true
          · simp [executeNextQueue, hf] at he
          · simp only [executeNextQueue, hf, if_false] at hs he ⊢
            exact ih _ _ hs he

theorem executeNextQueue_error_head (fuel : Nat) :
    ∀ pending executed i, (executeNextQueue fuel pending executed).error = some i →
      ∃ f rest, (executeNextQueue fuel pending executed).pending = f :: rest ∧
        f.fails = true ∧ f.id = i := by
  induction fuel with
  | zero => intro pending executed i h; simp [executeNextQueue] at h
  | succ f ih =>
      intro pending executed i h
      cases pending with
      | nil => simp [executeNextQueue] at h
      | cons fn rest =>
          by_cases hf : fn.fails = true
          · simp only [executeNextQueue, hf, if_true] at h ⊢
            exact ⟨fn, rest ++ fn.spawns.map QTask.ofSpawn, rfl, hf, by simpa using h⟩
          · simp only [executeNextQueue, hf, if_false] at h ⊢
            exact ih _ _ _ h

/-! ## The spec scenario -/

/-- Concrete inspector for the spec scenario: root `R = 1` has children
`A = 2` (`canHaveChildren` true) and `B = 3` (false); `A`'s children are
`C = 4` and `D = 5`. -/
def demoInspector : Inspector :=
  { canHaveChildren := fun n => n == 1 || n == 2,
    getChildrenOf := fun n =>
      if n == 1 then [some 2, some 3]
      else if n == 2 then [some 4, some 5]
      else [],
    getParentOf := fun n =>
      if n == 2 || n == 3 then some 1
      else if n == 4 || n == 5 then some 2
      else none }

/-- The projection right after `setRoot(R)` on a fresh data source. -/
def demoAfterRoot : Outcome := setRoot demoInspector DS.init (some 1) none

/-- The projection after `expandNode(A)`. -/
def demoAfterExpand : Outcome := expandNode demoInspector demoAfterRoot.1 2

/-- The projection after `collapseNode(A)`. -/
def demoAfterCollapse : Outcome := collapseNode demoAfterExpand.1 2

/-- The visible rows as `(node, level)` pairs, in display order. -/
def rowView (ds : DS) : List (Nat × Int) :=
  ds.rowList.filterMap fun r => (ds.rec? r).map fun rm => (rm.node, rm.level)

/-! ## Claims -/

/-- C1 — For root `R` with children `[A, B]` (`A` expandable, `B` not)
and `A`'s children `[C, D]`: after `setRoot(R)` the rows are `[A, B]` at
level 0 with size `{rows:2, cols:1}`; after `expandNode(A)` the rows are
`[A, C, D, B]` with `C`, `D` at level 1, size `{rows:4, cols:1}`, and
`getNodeStateFor(A) = {level:0, state:"open"}`; after `collapseNode(A)`
the rows are `[A, B]` again and `getNodeStateFor(A) = {level:0,
state:"closed"}` — expansion splices the children right after the parent
row in `getChildrenOf` order, preserving the rows before and after. -/
theorem C1_scenario :
    demoAfterRoot.2 = none ∧
    rowView demoAfterRoot.1 = [(2, 0), (3, 0)] ∧
    getSize demoAfterRoot.1 = (2, 1) ∧
    demoAfterExpand.2 = none ∧
    rowView demoAfterExpand.1 = [(2, 0), (4, 1), (5, 1), (3, 0)] ∧
    getSize demoAfterExpand.1 = (4, 1) ∧
    getNodeStateFor demoAfterExpand.1 2 = some ⟨0, "open"⟩ ∧
    demoAfterCollapse.2 = none ∧
    rowView demoAfterCollapse.1 = [(2, 0), (3, 0)] ∧
    getNodeStateFor demoAfterCollapse.1 2 = some ⟨0, "closed"⟩ := by
  decide

/-- C2 (counterexample) — Caller one enqueues task 1 into the empty
queue; while it runs, other callers enqueue failing task 2 and then task
3.  The error of task 2 propagates out of *caller one's* `queue` call (the
drain initiator), while task 2's own submitter got an immediately
resolved, error-free promise; and task 3, enqueued after the failing task,
is never executed — refuting both halves of the claim. -/
theorem C2_counterexample :
    (queueCall 10 [] ⟨1, false, [(2, true), (3, false)]⟩ =
      (⟨[⟨2, true, []⟩, ⟨3, false, []⟩], [1], some 2, false⟩, true)) ∧
    (queueCall 10 [⟨1, false, [(2, true), (3, false)]⟩] ⟨2, true, []⟩ =
      (⟨[⟨1, false, [(2, true), (3, false)]⟩, ⟨2, true, []⟩], [], none, false⟩,
        false)) ∧
    3 ∉ (queueCall 10 [] ⟨1, false, [(2, true), (3, false)]⟩).1.executed := by
  decide

/-- C2 (amended) — A caller that enqueues while the queue is non-empty
returns immediately with no error, whatever its task later does; when a
drain raises, the error surfaces at the `queue` call that initiated the
drain, and the failing task remains at the head of the queue with the
tasks behind it unexecuted (the queue stalls rather than continuing). -/
theorem C2_amended_error_routing (fuel : Nat) (pending : List QTask) (fn : QTask) :
    (pending ≠ [] →
      queueCall fuel pending fn = (⟨pending ++ [fn], [], none, false⟩, false)) ∧
    (pending = [] → ∀ i,
      ((queueCall fuel pending fn).1).error = some i →
      ∃ f rest, ((queueCall fuel pending fn).1).pending = f :: rest ∧
        f.fails = true ∧ f.id = i) := by
  constructor
  · intro h
    match pending, h with
    | p :: rest, _ => simp [queueCall]
  · intro h i herr
    subst h
    simp only [queueCall, List.nil_append, List.length_singleton] at herr ⊢
    exact executeNextQueue_error_head fuel [fn] [] i (by simpa using herr)

/-- Witness for `C2_amended_error_routing` at concrete inputs. -/
theorem C2_amended_error_routing_witness :
    (queueCall 10 [⟨1, false, []⟩] ⟨2, true, []⟩ =
      (⟨[⟨1, false, []⟩, ⟨2, true, []⟩], [], none, false⟩, false)) ∧
    (∃ f rest, ((queueCall 3 [] ⟨2, true, []⟩).1).pending = f :: rest ∧
      f.fails = true ∧ f.id = 2) :=
  ⟨(C2_amended_error_routing 10 [⟨1, false, []⟩] ⟨2, true, []⟩).1 (by decide),
   (C2_amended_error_routing 3 [] ⟨2, true, []⟩).2 rfl 2 (by decide)⟩

/-- C3 (code bug, evaluated) — With one pending task and no drain
promise registered, `makeAvailable` only registers `__promiseQueueEmpty`
and returns with the caller *not* suspended (`false`), although the queue
is non-empty; only a second call (promise now registered) actually awaits
the drain. -/
theorem C3_makeAvailable_eval :
    isAvailable ⟨[⟨1, false, []⟩], false⟩ = false ∧
    makeAvailable ⟨[⟨1, false, []⟩], false⟩ = (⟨[⟨1, false, []⟩], true⟩, false) ∧
    makeAvailable ⟨[⟨1, false, []⟩], true⟩ = (⟨[⟨1, false, []⟩], true⟩, true) := by
  decide

/-- C4 (code bug, evaluated) — After `setRoot(R)` and `expandNode(A)`
two children-change bindings are live (`created = [0, 1]`, none disposed).
Setting the root to null with old root `R` clears the row list and the
node index but disposes *nothing*: the dispose loop in `__applyRoot`
iterates `oldRowMetaDatas`, captured after `this.__rowMetaDatas` was
already emptied (and with `for..in`), so both subscriptions leak. -/
theorem C4_setRoot_leaks_subscriptions :
    demoAfterExpand.1.created = [0, 1] ∧
    demoAfterExpand.1.disposed = [] ∧
    (setRoot demoInspector demoAfterExpand.1 none (some 1)).2 = none ∧
    (setRoot demoInspector demoAfterExpand.1 none (some 1)).1.rowList = [] ∧
    (setRoot demoInspector demoAfterExpand.1 none (some 1)).1.byNode = [] ∧
    (setRoot demoInspector demoAfterExpand.1 none (some 1)).1.disposed = [] := by
  decide

/-- C5 (counterexample) — Setting root `7` (whose inspector reports
`canHaveChildren = false`) over the existing projection throws the
invariant error and empties the row list, but the node index is *not*
empty: it retains the record created for the rejected root (indexed
before the check throws). -/
theorem C5_counterexample :
    (setRoot demoInspector demoAfterRoot.1 (some 7) (some 1)).2 =
      some "Root must be able to have children!" ∧
    (setRoot demoInspector demoAfterRoot.1 (some 7) (some 1)).1.rowList = [] ∧
    (setRoot demoInspector demoAfterRoot.1 (some 7) (some 1)).1.byNode = [(7, 3)] ∧
    (setRoot demoInspector demoAfterRoot.1 (some 7) (some 1)).1.byNode ≠ [] := by
  decide

/-- C5 (amended) — For every new root reported unable to have
children, `setRoot` over a previous root fails with the invariant error
and leaves the row list empty, but the node index holds exactly the
record created for the rejected root (level `-1`, `canHaveChildren`
false, no children, no binding). -/
theorem C5_amended_reject_root (insp : Inspector) (ds : DS) (root old : Nat)
    (h : insp.canHaveChildren root = false) :
    (setRoot insp ds (some root) (some old)).2 =
      some "Root must be able to have children!" ∧
    (setRoot insp ds (some root) (some old)).1.rowList = [] ∧
    (setRoot insp ds (some root) (some old)).1.byNode = [(root, ds.nextRec)] ∧
    (setRoot insp ds (some root) (some old)).1.rec? ds.nextRec =
      some { node := root, level := -1, canHaveChildren := some false,
             childRecIds := none, binding := none } := by
  simp [setRoot, applyRoot, h, DS.setRec, DS.rec?, createRowMetaData,
    aset, aset_aset, alookup_aset_self]

/-- Witness for `C5_amended_reject_root` at concrete inputs. -/
theorem C5_amended_reject_root_witness :
    (setRoot demoInspector DS.init (some 7) (some 1)).2 =
      some "Root must be able to have children!" ∧
    (setRoot demoInspector DS.init (some 7) (some 1)).1.rowList = [] ∧
    (setRoot demoInspector DS.init (some 7) (some 1)).1.byNode = [(7, DS.init.nextRec)] ∧
    (setRoot demoInspector DS.init (some 7) (some 1)).1.rec? DS.init.nextRec =
      some { node := 7, level := -1, canHaveChildren := some false,
             childRecIds := none, binding := none } :=
  C5_amended_reject_root demoInspector DS.init 7 1 (by decide)

/-- C6 (counterexample) — After `setRoot(R)`, the root node `R = 1` is
in the node index (record id 0) but has no row; `getPositionOfModel(R)`
returns `Position(-1, 0)`, not null. -/
theorem C6_counterexample :
    alookup demoAfterRoot.1.byNode 1 = some 0 ∧
    (0 : Nat) ∉ demoAfterRoot.1.rowList ∧
    getPositionOfModel demoAfterRoot.1 1 = some (-1, 0) ∧
    getPositionOfModel demoAfterRoot.1 1 ≠ none := by
  decide

/-- C6 (amended) — `getPositionOfModel(node)` returns null exactly
when the node is absent from the node index; for an indexed node it
returns a `Position`: row `-1` when the node's record has no row (e.g.
the root), and the (non-negative) row index when it does. -/
theorem C6_amended_position (ds : DS) (node : Nat) :
    (alookup ds.byNode node = none → getPositionOfModel ds node = none) ∧
    (∀ rid, alookup ds.byNode node = some rid → rid ∉ ds.rowList →
      getPositionOfModel ds node = some (-1, 0)) ∧
    (∀ rid, alookup ds.byNode node = some rid → rid ∈ ds.rowList →
      ∃ i : Int, 0 ≤ i ∧ getPositionOfModel ds node = some (i, 0)) := by
  refine ⟨?_, ?_, ?_⟩
  · intro h
    simp [getPositionOfModel, h]
  · intro rid h hmem
    simp [getPositionOfModel, h, idxOf_of_not_mem _ _ hmem]
  · intro rid h hmem
    exact ⟨idxOf ds.rowList rid, idxOf_nonneg_of_mem _ _ hmem,
      by simp [getPositionOfModel, h]⟩

/-- Witness for `C6_amended_position` at concrete inputs. -/
theorem C6_amended_position_witness :
    getPositionOfModel demoAfterRoot.1 1 = some (-1, 0) ∧
    (∃ i : Int, 0 ≤ i ∧ getPositionOfModel demoAfterRoot.1 2 = some (i, 0)) :=
  ⟨(C6_amended_position demoAfterRoot.1 1).2.1 0 (by decide) (by decide),
   (C6_amended_position demoAfterRoot.1 2).2.2 1 (by decide) (by decide)⟩

/-- C7 (code bug, evaluated) — For node `42`, disconnected from the
tree (`getParentOf` null), `revealNode` completes without any error and
changes nothing: the ancestor path comes back empty and the guard `if
(!ancestors) throw new Error("Cannot find node in tree")` can never fire,
because the `qx.data.Array` object is always truthy. -/
theorem C7_reveal_disconnected_silent :
    demoInspector.getParentOf 42 = none ∧
    revealNode demoInspector 10 demoAfterRoot.1 42 = (demoAfterRoot.1, none) := by
  decide

/-- C10 — `getShownChildren(node)` throws (never returns null or an
empty fallback) when the node is absent from the index or its record has
no materialized `childRowMetas`; it returns the children's nodes exactly
when `childRowMetas` is present. -/
theorem C10_getShownChildren_throws (ds : DS) (node : Nat) :
    (alookup ds.byNode node = none →
      ∃ e, getShownChildren ds node = .error e) ∧
    (∀ rid rm, alookup ds.byNode node = some rid → ds.rec? rid = some rm →
      rm.childRecIds = none → ∃ e, getShownChildren ds node = .error e) ∧
    (∀ rid rm kids, alookup ds.byNode node = some rid → ds.rec? rid = some rm →
      rm.childRecIds = some kids →
      getShownChildren ds node =
        .ok (kids.map fun k => (((ds.rec? k).map (·.node)).getD 0))) := by
  refine ⟨?_, ?_, ?_⟩
  · intro h
    exact ⟨"TypeError: cannot read childRowMetas of undefined",
      by simp [getShownChildren, h]⟩
  · intro rid rm h hrec hkids
    exact ⟨"TypeError: cannot call map of undefined",
      by simp [getShownChildren, h, hrec, hkids]⟩
  · intro rid rm kids h hrec hkids
    simp [getShownChildren, h, hrec, hkids]

/-- Witness for `C10_getShownChildren_throws` at concrete inputs. -/
theorem C10_getShownChildren_throws_witness :
    (∃ e, getShownChildren demoAfterRoot.1 99 = .error e) ∧
    (∃ e, getShownChildren demoAfterRoot.1 2 = .error e) ∧
    getShownChildren demoAfterExpand.1 2 = .ok [4, 5] :=
  ⟨(C10_getShownChildren_throws demoAfterRoot.1 99).1 (by decide),
   (C10_getShownChildren_throws demoAfterRoot.1 2).2.1 1
     { node := 2, level := 0, canHaveChildren := some true,
       childRecIds := none, binding := none } (by decide) (by decide) rfl,
   by
     exact (C10_getShownChildren_throws demoAfterExpand.1 2).2.2 1
       { node := 2, level := 0, canHaveChildren := some true,
         childRecIds := some [3, 4], binding := some 1 } [3, 4]
       (by decide) (by decide) rfl⟩

/-- C9 — A `queue(fn)` call made while the queue is non-empty resolves
immediately, before `fn` runs (nothing is executed, `fn` merely joins the
queue); only a caller whose push made the queue length 1 awaits the drain,
and when that drain neither stalls nor errors it runs until the queue —
including every task enqueued behind the first while draining — is empty. -/
theorem C9_busy_enqueue_immediate (fuel : Nat) (pending : List QTask) (fn : QTask) :
    (pending ≠ [] →
      queueCall fuel pending fn = (⟨pending ++ [fn], [], none, false⟩, false)) ∧
    (pending = [] →
      (queueCall fuel pending fn).2 = true ∧
      ((queueCall fuel pending fn).1.stalled = false →
        (queueCall fuel pending fn).1.error = none →
        (queueCall fuel pending fn).1.pending = [])) := by
  constructor
  · intro h
    match pending, h with
    | p :: rest, _ => simp [queueCall]
  · intro h
    subst h
    simp only [queueCall, List.nil_append, List.length_singleton]
    exact ⟨rfl, fun hs he => executeNextQueue_drains fuel [fn] [] (by simpa using hs)
      (by simpa using he)⟩

/-- Witness for `C8_expand_collapse_roundtrip` at the scenario state:
expanding and collapsing node `A = 2` (record id 1) of the freshly rooted
projection restores it exactly and disposes binding 1. -/
theorem C8_expand_collapse_roundtrip_witness :
    (expandNode demoInspector demoAfterRoot.1 2).2 = none ∧
    (expandNode demoInspector demoAfterRoot.1 2).1.created =
      demoAfterRoot.1.created ++ [demoAfterRoot.1.nextBinding] ∧
    (collapseNode (expandNode demoInspector demoAfterRoot.1 2).1 2).2 = none ∧
    (collapseNode (expandNode demoInspector demoAfterRoot.1 2).1 2).1.rowList =
      demoAfterRoot.1.rowList ∧
    (collapseNode (expandNode demoInspector demoAfterRoot.1 2).1 2).1.byNode =
      demoAfterRoot.1.byNode ∧
    alookup (collapseNode (expandNode demoInspector demoAfterRoot.1 2).1 2).1.byNode 2 =
      some 1 ∧
    (collapseNode (expandNode demoInspector demoAfterRoot.1 2).1 2).1.rec? 1 =
      some { node := 2, level := 0, canHaveChildren := some true,
             childRecIds := none, binding := none } ∧
    (∀ c ∈ (demoInspector.getChildrenOf 2).reduceOption,
      alookup (collapseNode (expandNode demoInspector demoAfterRoot.1 2).1 2).1.byNode c =
        none) ∧
    (collapseNode (expandNode demoInspector demoAfterRoot.1 2).1 2).1.disposed =
      demoAfterRoot.1.disposed ++ [demoAfterRoot.1.nextBinding] :=
  C8_expand_collapse_roundtrip demoInspector demoAfterRoot.1 2 1
    { node := 2, level := 0, canHaveChildren := some true,
      childRecIds := none, binding := none }
    (by decide) (by decide) rfl rfl rfl (by decide) (by decide) (by decide) (by decide)

/-- Witness for `C9_busy_enqueue_immediate` at concrete inputs. -/
theorem C9_busy_enqueue_immediate_witness :
    (queueCall 5 [⟨1, false, []⟩] ⟨2, false, []⟩ =
      (⟨[⟨1, false, []⟩, ⟨2, false, []⟩], [], none, false⟩, false)) ∧
    ((queueCall 5 [] ⟨1, false, [(2, false)]⟩).2 = true ∧
      (queueCall 5 [] ⟨1, false, [(2, false)]⟩).1.pending = []) := by
  refine ⟨(C9_busy_enqueue_immediate 5 [⟨1, false, []⟩] ⟨2, false, []⟩).1 (by decide), ?_⟩
  have h := (C9_busy_enqueue_immediate 5 [] ⟨1, false, [(2, false)]⟩).2 rfl
  exact ⟨h.1, h.2 (by decide) (by decide)⟩

end TreeDataSource
